import Mathlib

/-!
Verification development for the ShortsStash core pipeline.

The definitions below are a shallow embedding of the incremental
discovery / dedup / classification / acquisition pipeline implemented in
src/main.mjs (functions processChannel, findNewVideos,
downloadAndProcessVideo, runAutomation) together with the persisted-store
reconciliation step backed by the sqlite schema in database.mjs.
JavaScript strings are modelled by String, string comparison
(localeCompare and comparison operators on YYYYMMDD dates) by
lexicographic comparison of the underlying character lists, JS Map
insertion-order semantics by an explicit insertion-ordered association
list, and the stable Array sort by a stable insertion sort.
-/

namespace ShortsStash

/-- Lexicographic strict comparison of character lists, by code point.
Models the JavaScript string comparison used on YYYYMMDD upload dates
(the date-floor comparison in findNewVideos and the localeCompare-based
sort comparator in processChannel). -/
def lexLt : List Char → List Char → Bool
  | [], [] => false
  | [], _ :: _ => true
  | _ :: _, [] => false
  | a :: as, b :: bs =>
    if a.toNat < b.toNat then true
    else if b.toNat < a.toNat then false
    else lexLt as bs

theorem lexLt_irrefl (l : List Char) : lexLt l l = false := by
  induction l with
  | nil => rfl
  | cons a as ih => simp [lexLt, ih]

theorem lexLt_asymm : ∀ {a b : List Char}, lexLt a b = true → lexLt b a = false
  | [], [], h => by simp [lexLt] at h
  | [], _ :: _, _ => rfl
  | _ :: _, [], h => by simp [lexLt] at h
  | a :: as, b :: bs, h => by
    by_cases hab : a.toNat < b.toNat
    · have hba : ¬ b.toNat < a.toNat := by omega
      simp [lexLt, hab, hba]
    · by_cases hba : b.toNat < a.toNat
      · simp [lexLt, hab, hba] at h
      · simp [lexLt, hab, hba] at h ⊢
        exact lexLt_asymm h

theorem lexLt_neg_trans :
    ∀ {a b c : List Char}, lexLt a b = false → lexLt b c = false → lexLt a c = false
  | [], [], [], _, _ => rfl
  | [], [], _ :: _, _, h2 => by simp [lexLt] at h2
  | [], _ :: _, _, h1, _ => by simp [lexLt] at h1
  | _ :: _, _, [], _, _ => rfl
  | _ :: _, [], _ :: _, _, h2 => by simp [lexLt] at h2
  | a :: as, b :: bs, c :: cs, h1, h2 => by
    by_cases hab : a.toNat < b.toNat
    · simp [lexLt, hab] at h1
    · by_cases hbc : b.toNat < c.toNat
      · simp [lexLt, hbc] at h2
      · by_cases hca : c.toNat < a.toNat
        · have hac : ¬ a.toNat < c.toNat := by omega
          simp [lexLt, hac, hca]
        · have hac : ¬ a.toNat < c.toNat := by omega
          have hba : ¬ b.toNat < a.toNat := by omega
          have hcb : ¬ c.toNat < b.toNat := by omega
          simp [lexLt, hab, hba] at h1
          simp [lexLt, hbc, hcb] at h2
          simp [lexLt, hac, hca]
          exact lexLt_neg_trans h1 h2

/-- A video candidate as produced by the Lister (yt-dlp JSON entry):
the fields of src/main.mjs that the core pipeline reads. -/
structure Video where
  id : String
  title : String
  upload_date : String
  duration : Int
  width : Int
  height : Int
deriving DecidableEq, Repr

/-- The classification predicate of src/main.mjs
(`v.duration < 181 && v.width < v.height`, lines 137-138 and 232-233). -/
def isShortFormat (v : Video) : Bool :=
  decide (v.duration < 181) && decide (v.width < v.height)

/-- Result of findNewVideos for one listing view. -/
structure ViewResult where
  shorts : List Video
  normalVideos : List Video
deriving DecidableEq, Repr

/-- The collection loop of findNewVideos (src/main.mjs lines 224-230):
entries that are null (`!video`), have a falsy upload_date
(`!video.upload_date`, i.e. the empty string), or fall below the date
floor (`video.upload_date < afterDate`) are skipped. -/
def collectFound (afterDate : String) (entries : List (Option Video)) : List Video :=
  entries.filterMap (fun e =>
    match e with
    | none => none
    | some v =>
      if v.upload_date = "" then none
      else if lexLt v.upload_date.data afterDate.data then none
      else some v)

/-- findNewVideos (src/main.mjs lines 203-236).  The Lister call
(yt-dlp) is a collaborator; its result is passed in: an error models the
catch branch, `none` models a JSON document without an entries array.
The lastVideoId parameter is accepted but, as in the source, never used. -/
def findNewVideos (listerResult : Except String (Option (List (Option Video))))
    (afterDate : String) (lastVideoId : Option String) : ViewResult :=
  match listerResult with
  | Except.error _ => ⟨[], []⟩
  | Except.ok none => ⟨[], []⟩
  | Except.ok (some entries) =>
    if entries.length = 0 then ⟨[], []⟩
    else
      let allFoundVideos := collectFound afterDate entries
      ⟨allFoundVideos.filter (fun v => isShortFormat v),
       allFoundVideos.filter (fun v => !(isShortFormat v))⟩

/-- The concatenation order of src/main.mjs lines 115-118:
videos-tab shorts, shorts-tab shorts, videos-tab normals, shorts-tab normals. -/
def combinedList (videosResult shortsResult : ViewResult) : List Video :=
  videosResult.shorts ++ shortsResult.shorts ++
    videosResult.normalVideos ++ shortsResult.normalVideos

/-- One `uniqueVideos.set(video.id, video)` step of src/main.mjs line 120,
with JS Map semantics: an existing key keeps its insertion position but its
value is overwritten; a new key is appended. -/
def insertVideo (acc : List Video) (v : Video) : List Video :=
  if acc.any (fun w => w.id = v.id) then
    acc.map (fun w => if w.id = v.id then v else w)
  else acc ++ [v]

/-- The Map-based dedup loop of src/main.mjs lines 114-121 followed by
`Array.from(uniqueVideos.values())`. -/
def dedupById (l : List Video) : List Video :=
  l.foldl insertVideo []

/-- The deduplicated merge of the two listing views (src/main.mjs lines 114-121). -/
def mergedUnique (videosResult shortsResult : ViewResult) : List Video :=
  dedupById (combinedList videosResult shortsResult)

/-- Stable insertion of a video into a list sorted by upload date
descending; an element moves past another only when strictly older,
matching the comparator `b.upload_date.localeCompare(a.upload_date)`. -/
def insertByDate (v : Video) : List Video → List Video
  | [] => [v]
  | w :: ws =>
    if lexLt v.upload_date.data w.upload_date.data then w :: insertByDate v ws
    else v :: w :: ws

/-- The stable sort of src/main.mjs line 128: sort by upload_date
descending (JS Array sort is stable). -/
def sortByDateDesc (l : List Video) : List Video :=
  l.foldr insertByDate []

/-- JS Array.prototype.findIndex, with -1 mapped to `none`
(src/main.mjs line 129). -/
def findIndexOpt {α : Type} (p : α → Bool) : List α → Option Nat
  | [] => none
  | x :: xs => if p x then some 0 else (findIndexOpt p xs).map (fun i => i + 1)

/-- The cursor truncation of src/main.mjs lines 129-130.  A `none` cursor
models a NULL last_video_id; the empty string is also treated as absent
because `channel.last_video_id ?` is a JS truthiness test. -/
def truncateAtCursor (cursor : Option String) (sorted : List Video) : List Video :=
  match cursor with
  | none => sorted
  | some c =>
    if c = "" then sorted
    else
      match findIndexOpt (fun v => v.id = c) sorted with
      | none => sorted
      | some i => sorted.take i

/-- The pure outcome of one processChannel invocation
(src/main.mjs lines 104-198): the truncated new-video list, its
classification into shorts and normals, and the cursor update performed
at lines 194-197 (`none` when the UPDATE statement is not executed). -/
structure ChannelStep where
  newVideos : List Video
  shorts : List Video
  normalVideos : List Video
  newCursor : Option String
deriving DecidableEq, Repr

/-- processChannel (src/main.mjs lines 104-198) restricted to its pure
data flow: merge both tabs, dedup by id, sort by date descending,
truncate at the cursor, classify, and compute the cursor update.
`newLatestId = newVideos[0].id` is set at line 139 and written at
lines 194-197 behind a truthiness test. -/
def processChannel (cursor : Option String) (videosResult shortsResult : ViewResult) :
    ChannelStep :=
  let uniqueVideos := mergedUnique videosResult shortsResult
  if uniqueVideos.length = 0 then ⟨[], [], [], none⟩
  else
    let sortedVideos := sortByDateDesc uniqueVideos
    let newVideos := truncateAtCursor cursor sortedVideos
    if newVideos.length = 0 then ⟨[], [], [], none⟩
    else
      let newLatestId := (newVideos.head?.map Video.id).getD ""
      ⟨newVideos,
       newVideos.filter (fun v => isShortFormat v),
       newVideos.filter (fun v => !(isShortFormat v)),
       if newLatestId = "" then none else some newLatestId⟩

/-- The channel cursor after one run: unchanged when processChannel
performs no UPDATE, otherwise the written value. -/
def nextCursor (cursor : Option String) (videosResult shortsResult : ViewResult) :
    Option String :=
  match (processChannel cursor videosResult shortsResult).newCursor with
  | none => cursor
  | some c => some c

/-- Observable events of one processChannel run: an acquisition attempt
for a candidate (with its success flag) or a cursor write. -/
inductive RunEvent where
  | acquire (v : Video) (ok : Bool)
  | setCursor (c : String)
deriving DecidableEq, Repr

def isCursorWrite : RunEvent → Bool
  | RunEvent.setCursor _ => true
  | RunEvent.acquire _ _ => false

/-- The event trace of one processChannel run (src/main.mjs lines 141-197):
every short is attempted automatically (downloadAndProcessVideo catches
its own errors, so a failed attempt does not stop the loop); an
externally chosen subset of the normal videos is attempted; finally the
cursor is written if newLatestId is truthy.  `outcome` gives each
attempt's success, `chooseNormals` models the interactive selection
(constantly [] under --skip-videos). -/
def channelRunEvents (cursor : Option String) (videosResult shortsResult : ViewResult)
    (outcome : Video → Bool) (chooseNormals : List Video → List Video) : List RunEvent :=
  let st := processChannel cursor videosResult shortsResult
  let attempts := (st.shorts ++ chooseNormals st.normalVideos).map
    (fun v => RunEvent.acquire v (outcome v))
  match st.newCursor with
  | none => attempts
  | some c => attempts ++ [RunEvent.setCursor c]

/-- A row of the channels table (database.mjs: url UNIQUE, last_video_id
nullable, is_active INTEGER DEFAULT 1). -/
structure ChannelRec where
  url : String
  last_video_id : Option String
  is_active : Bool
deriving DecidableEq, Repr

/-- A row of the videos table (an acquisition record). -/
structure AcqRec where
  id : String
  title : String
  channel_url : String
  upload_date : String
deriving DecidableEq, Repr

/-- The persisted store: channels and acquisition records. -/
structure Store where
  channels : List ChannelRec
  videos : List AcqRec
deriving DecidableEq, Repr

/-- The channel loop inside the single try block of runAutomation
(src/main.mjs lines 82-87): channels are processed in order; the first
channel whose run throws makes control jump to the catch at line 90,
which records the error — the remaining channels are not attempted.
Returns the channels actually attempted and the recorded error. -/
def runBatch (runChannel : ChannelRec → Except String Unit) :
    List ChannelRec → List ChannelRec × Option String
  | [] => ([], none)
  | ch :: rest =>
    match runChannel ch with
    | Except.error e => ([ch], some e)
    | Except.ok _ =>
      let r := runBatch runChannel rest
      (ch :: r.1, r.2)

/-- `INSERT OR IGNORE INTO channels(url) VALUES(?)` (src/main.mjs line 63):
a fresh row gets last_video_id NULL and is_active DEFAULT 1. -/
def insertOrIgnoreChannel (store : List ChannelRec) (url : String) : List ChannelRec :=
  if store.any (fun c => c.url = url) then store
  else store ++ [⟨url, none, true⟩]

/-- `UPDATE channels SET is_active = 1 WHERE url = ?` (src/main.mjs line 65). -/
def activateChannel (store : List ChannelRec) (url : String) : List ChannelRec :=
  store.map (fun c => if c.url = url then { c with is_active := true } else c)

/-- One iteration of the config-sync loop (src/main.mjs lines 61-66). -/
def syncStep (store : List ChannelRec) (url : String) : List ChannelRec :=
  activateChannel (insertOrIgnoreChannel store url) url

/-- The reconciliation of runAutomation (src/main.mjs lines 57-76):
insert-or-ignore plus activate for every configured url, then
`UPDATE channels SET is_active = 0` for each channel of the original
snapshot whose url is absent from the config.  No DELETE is issued. -/
def reconcileChannels (configUrls : List String) (store : List ChannelRec) :
    List ChannelRec :=
  let afterAdd := configUrls.foldl syncStep store
  afterAdd.map (fun c =>
    if store.any (fun d => d.url = c.url) && !(configUrls.contains c.url) then
      { c with is_active := false }
    else c)

/-- Reconciliation acts on the channels table only; the videos table is
untouched (runAutomation issues no statement against it). -/
def reconcileStore (configUrls : List String) (s : Store) : Store :=
  ⟨reconcileChannels configUrls s.channels, s.videos⟩

/-- Outcomes of the collaborator calls inside one downloadAndProcessVideo
invocation: whether each stream fetch succeeded, whether it left a file
on disk (a failed fetch may or may not have created one), and whether the
transcode succeeded. -/
structure AcqOutcome where
  videoFetchOk : Bool
  videoFileCreated : Bool
  audioFetchOk : Bool
  audioFileCreated : Bool
  transcodeOk : Bool
deriving DecidableEq, Repr

/-- A filesystem as a membership predicate on path names. -/
def FileSys : Type := String → Bool

def fsAdd (x : String) (fs : FileSys) : FileSys :=
  fun s => if s = x then true else fs s

/-- `unlink(path).catch(() => ...)`: removes the path, absence and errors
ignored. -/
def fsUnlink (x : String) (fs : FileSys) : FileSys :=
  fun s => if s = x then false else fs s

/-- The filesystem effect of downloadAndProcessVideo
(src/main.mjs lines 243-276).  The try block fetches both streams
concurrently into the two temporary files and, only if both fetches
succeeded, runs the transcode producing the output file; the catch block
touches no files; the finally block unlinks both temporary files on every
exit path. -/
def downloadAndProcessFS (tempVideoFile tempAudioFile outputFile : String)
    (o : AcqOutcome) (fs : FileSys) : FileSys :=
  let fs1 := if o.videoFileCreated then fsAdd tempVideoFile fs else fs
  let fs2 := if o.audioFileCreated then fsAdd tempAudioFile fs1 else fs1
  let fs3 :=
    if o.videoFetchOk && o.audioFetchOk && o.transcodeOk then fsAdd outputFile fs2
    else fs2
  fsUnlink tempAudioFile (fsUnlink tempVideoFile fs3)

/-! ### Helper lemmas about the Map-based dedup -/

theorem dedupById_append_singleton (l : List Video) (v : Video) :
    dedupById (l ++ [v]) = insertVideo (dedupById l) v := by
  simp [dedupById, List.foldl_append]

theorem map_id_insertVideo_mem (acc : List Video) (v : Video)
    (h : acc.any (fun w => w.id = v.id) = true) :
    (insertVideo acc v).map Video.id = acc.map Video.id := by
  simp only [insertVideo, h, if_pos, List.map_map]
  exact List.map_congr_left (fun w _ => by
    by_cases hw : w.id = v.id <;> simp [hw, Function.comp])

theorem map_id_insertVideo_not_mem (acc : List Video) (v : Video)
    (h : acc.any (fun w => w.id = v.id) = false) :
    (insertVideo acc v).map Video.id = acc.map Video.id ++ [v.id] := by
  simp [insertVideo, h]

theorem nodup_map_id_dedupById (l : List Video) :
    ((dedupById l).map Video.id).Nodup := by
  induction l using List.reverseRecOn with
  | nil => simp [dedupById]
  | append_singleton l v ih =>
    rw [dedupById_append_singleton]
    cases h : (dedupById l).any (fun w => w.id = v.id) with
    | true => rw [map_id_insertVideo_mem _ _ h]; exact ih
    | false =>
      rw [map_id_insertVideo_not_mem _ _ h]
      have hnm : v.id ∉ (dedupById l).map Video.id := by
        intro hmem
        obtain ⟨w, hw, hwid⟩ := List.mem_map.mp hmem
        have : (dedupById l).any (fun w => w.id = v.id) = true :=
          List.any_eq_true.mpr ⟨w, hw, by simp [hwid]⟩
        rw [h] at this
        exact Bool.false_ne_true this
      simp [List.nodup_append, ih, hnm]

theorem mem_map_id_dedupById (l : List Video) (i : String) :
    i ∈ (dedupById l).map Video.id ↔ i ∈ l.map Video.id := by
  induction l using List.reverseRecOn generalizing i with
  | nil => simp [dedupById]
  | append_singleton l v ih =>
    rw [dedupById_append_singleton]
    cases h : (dedupById l).any (fun w => w.id = v.id) with
    | true =>
      rw [map_id_insertVideo_mem _ _ h]
      have hv : v.id ∈ l.map Video.id := by
        obtain ⟨w, hw, hwid⟩ := List.any_eq_true.mp h
        rw [← ih]
        exact List.mem_map.mpr ⟨w, hw, by simpa using hwid⟩
      simp only [List.map_append, List.mem_append, List.map_cons, List.map_nil,
        List.mem_singleton, ih]
      constructor
      · exact fun hi => Or.inl hi
      · rintro (hi | rfl)
        · exact hi
        · exact hv
    | false =>
      rw [map_id_insertVideo_not_mem _ _ h]
      simp [List.mem_append, ih]

theorem length_dedupById (l : List Video) :
    (dedupById l).length = (l.map Video.id).toFinset.card := by
  have h1 : (dedupById l).length = ((dedupById l).map Video.id).length := by simp
  have h2 : ((dedupById l).map Video.id).toFinset.card
      = ((dedupById l).map Video.id).length :=
    List.toFinset_card_of_nodup (nodup_map_id_dedupById l)
  have h3 : ((dedupById l).map Video.id).toFinset = (l.map Video.id).toFinset := by
    ext i
    simp only [List.mem_toFinset]
    exact mem_map_id_dedupById l i
  rw [h1, ← h2, h3]

theorem find?_map_overwrite_eq (acc : List Video) (v : Video) (c : String)
    (hvc : v.id = c) :
    (acc.map (fun w => if w.id = v.id then v else w)).find? (fun x => x.id = c)
      = if acc.any (fun w => w.id = c) then some v else none := by
  induction acc with
  | nil => simp
  | cons w ws ih =>
    by_cases hw : w.id = v.id
    · have hwc : w.id = c := by rw [hw, hvc]
      simp [hw, hvc, hwc]
    · have hwc : ¬ (w.id = c) := by rw [← hvc]; exact hw
      simp [hw, hwc, ih]

theorem find?_map_overwrite_ne (acc : List Video) (v : Video) (c : String)
    (hvc : ¬ v.id = c) :
    (acc.map (fun w => if w.id = v.id then v else w)).find? (fun x => x.id = c)
      = acc.find? (fun x => x.id = c) := by
  induction acc with
  | nil => simp
  | cons w ws ih =>
    by_cases hw : w.id = v.id
    · have hwc : ¬ (w.id = c) := by rw [hw]; exact hvc
      simp [hw, hvc, hwc, ih]
    · by_cases hwc : w.id = c
      · have hb : (decide (w.id = c)) = true := by simpa using hwc
        rw [List.map_cons, if_neg hw, List.find?_cons, List.find?_cons, hb]
      · have hb : (decide (w.id = c)) = false := by simpa using hwc
        rw [List.map_cons, if_neg hw, List.find?_cons, List.find?_cons, hb]
        exact ih

theorem find?_dedupById (l : List Video) (c : String) :
    (dedupById l).find? (fun v => v.id = c)
      = (l.filter (fun v => v.id = c)).getLast? := by
  induction l using List.reverseRecOn with
  | nil => simp [dedupById]
  | append_singleton l v ih =>
    rw [dedupById_append_singleton, List.filter_append]
    by_cases hvc : v.id = c
    · have hr : (List.filter (fun x => x.id = c) [v]) = [v] := by simp [hvc]
      rw [hr, List.getLast?_concat]
      unfold insertVideo
      cases hany : (dedupById l).any (fun w => w.id = v.id) with
      | true =>
        simp only [hany, if_pos]
        rw [find?_map_overwrite_eq _ _ _ hvc]
        have hc2 : (dedupById l).any (fun w => w.id = c) = true := by
          obtain ⟨w, hw, hwid⟩ := List.any_eq_true.mp hany
          exact List.any_eq_true.mpr ⟨w, hw, by simp at hwid ⊢; rw [hwid, hvc]⟩
        simp [hc2]
      | false =>
        simp only [hany, Bool.false_eq_true, if_neg, not_false_iff]
        rw [List.find?_append]
        have hnone : (dedupById l).find? (fun x => x.id = c) = none := by
          rw [List.find?_eq_none]
          intro x hx hfalse
          have : (dedupById l).any (fun w => w.id = v.id) = true :=
            List.any_eq_true.mpr ⟨x, hx, by simp at hfalse ⊢; rw [hfalse, hvc]⟩
          rw [hany] at this
          exact Bool.false_ne_true this
        rw [hnone]
        simp [hvc]
    · have hr : (List.filter (fun x => x.id = c) [v]) = [] := by simp [hvc]
      rw [hr, List.append_nil]
      unfold insertVideo
      cases hany : (dedupById l).any (fun w => w.id = v.id) with
      | true =>
        simp only [hany, if_pos]
        rw [find?_map_overwrite_ne _ _ _ hvc]
        exact ih
      | false =>
        simp only [hany, Bool.false_eq_true, if_neg, not_false_iff]
        rw [List.find?_append, ih]
        have : (List.find? (fun x => x.id = c) [v]) = none := by simp [hvc]
        rw [this]
        cases (l.filter (fun x => x.id = c)).getLast? <;> rfl

/-! ### Helper lemmas about the date sort and the cursor truncation -/

/-- Earlier-in-sorted-order: not strictly older. -/
def notOlder (a b : Video) : Prop :=
  lexLt a.upload_date.data b.upload_date.data = false

theorem mem_insertByDate (v x : Video) (l : List Video) :
    x ∈ insertByDate v l ↔ x = v ∨ x ∈ l := by
  induction l with
  | nil => simp [insertByDate]
  | cons w ws ih =>
    by_cases h : lexLt v.upload_date.data w.upload_date.data = true
    · simp only [insertByDate, h, if_pos, List.mem_cons, ih]
      tauto
    · have hge : lexLt v.upload_date.data w.upload_date.data = false :=
        Bool.eq_false_iff.mpr h
      simp only [insertByDate, hge, Bool.false_eq_true, if_neg, not_false_iff,
        List.mem_cons]

theorem pairwise_insertByDate (v : Video) (l : List Video)
    (h : l.Pairwise notOlder) : (insertByDate v l).Pairwise notOlder := by
  induction l with
  | nil => simp [insertByDate]
  | cons w ws ih =>
    rw [List.pairwise_cons] at h
    obtain ⟨hw, hws⟩ := h
    by_cases hlt : lexLt v.upload_date.data w.upload_date.data = true
    · simp only [insertByDate, hlt, if_pos]
      rw [List.pairwise_cons]
      constructor
      · intro x hx
        rcases (mem_insertByDate v x ws).mp hx with rfl | hx2
        · exact lexLt_asymm hlt
        · exact hw x hx2
      · exact ih hws
    · have hge : lexLt v.upload_date.data w.upload_date.data = false :=
        Bool.eq_false_iff.mpr hlt
      simp only [insertByDate, hge, Bool.false_eq_true, if_neg, not_false_iff]
      rw [List.pairwise_cons]
      constructor
      · intro x hx
        rcases List.mem_cons.mp hx with rfl | hx2
        · exact hge
        · exact lexLt_neg_trans hge (hw x hx2)
      · rw [List.pairwise_cons]
        exact ⟨hw, hws⟩

theorem pairwise_sortByDateDesc (l : List Video) :
    (sortByDateDesc l).Pairwise notOlder := by
  induction l with
  | nil => simp [sortByDateDesc]
  | cons v vs ih => exact pairwise_insertByDate v _ ih

theorem head_notOlder_of_mem {l : List Video} {hv w : Video}
    (hp : l.Pairwise notOlder) (hh : l.head? = some hv) (hw : w ∈ l) :
    lexLt hv.upload_date.data w.upload_date.data = false := by
  cases l with
  | nil => simp at hh
  | cons x xs =>
    have hx : x = hv := by simpa using hh
    subst hx
    rw [List.pairwise_cons] at hp
    rcases List.mem_cons.mp hw with rfl | hw2
    · exact lexLt_irrefl _
    · exact hp.1 w hw2

theorem findIndexOpt_eq_none {α : Type} (p : α → Bool) (l : List α)
    (h : ∀ x ∈ l, p x = false) : findIndexOpt p l = none := by
  induction l with
  | nil => rfl
  | cons x xs ih =>
    have hx : p x = false := h x (List.mem_cons_self x xs)
    simp only [findIndexOpt, hx, Bool.false_eq_true, if_neg, not_false_iff]
    rw [ih (fun y hy => h y (List.mem_cons_of_mem x hy))]
    rfl

theorem findIndexOpt_take_eq_takeWhile {α : Type} (p : α → Bool) (l : List α) :
    (match findIndexOpt p l with
     | none => l
     | some i => l.take i) = l.takeWhile (fun x => !(p x)) := by
  induction l with
  | nil => rfl
  | cons x xs ih =>
    by_cases hx : p x = true
    · simp [findIndexOpt, hx, List.takeWhile_cons]
    · have hx2 : p x = false := Bool.eq_false_iff.mpr hx
      simp only [findIndexOpt, hx2, Bool.false_eq_true, if_neg, not_false_iff,
        List.takeWhile_cons, Bool.not_false, if_pos]
      cases h : findIndexOpt p xs with
      | none =>
        rw [h] at ih
        simpa using ih
      | some i =>
        rw [h] at ih
        simpa using ih

theorem head?_truncateAtCursor (cursor : Option String) (l : List Video) (v : Video)
    (h : (truncateAtCursor cursor l).head? = some v) : l.head? = some v := by
  unfold truncateAtCursor at h
  cases cursor with
  | none => exact h
  | some c =>
    by_cases hc : c = ""
    · simpa [hc] using h
    · simp only [hc, if_neg, not_false_iff] at h
      cases hf : findIndexOpt (fun vv => vv.id = c) l with
      | none => rw [hf] at h; exact h
      | some i =>
        rw [hf] at h
        rw [List.head?_take] at h
        by_cases hi : i = 0
        · simp [hi] at h
        · simpa [hi] using h

/-! ### Helper lemmas about processChannel and the run events -/

theorem newCursor_eq_head_id {cursor : Option String} {vr sr : ViewResult} {c : String}
    (h : (processChannel cursor vr sr).newCursor = some c) :
    ∃ hv : Video, (sortByDateDesc (mergedUnique vr sr)).head? = some hv ∧ hv.id = c := by
  unfold processChannel at h
  by_cases h1 : (mergedUnique vr sr).length = 0
  · simp [h1] at h
  · simp only [h1, if_neg, not_false_iff] at h
    by_cases h2 : (truncateAtCursor cursor (sortByDateDesc (mergedUnique vr sr))).length = 0
    · simp [h2] at h
    · simp only [h2, if_neg, not_false_iff] at h
      cases hh : (truncateAtCursor cursor (sortByDateDesc (mergedUnique vr sr))).head? with
      | none =>
        rw [hh] at h
        simp at h
      | some v =>
        rw [hh] at h
        by_cases h3 : v.id = ""
        · simp [h3] at h
        · simp only [Option.map_some', Option.getD_some, h3, if_neg, not_false_iff,
            Option.some_inj] at h
          exact ⟨v, head?_truncateAtCursor cursor _ v hh, h⟩

theorem filter_cursorWrite_attempts (l : List Video) (f : Video → Bool) :
    ((l.map (fun v => RunEvent.acquire v (f v))).filter isCursorWrite) = [] := by
  induction l with
  | nil => rfl
  | cons x xs ih => simp [isCursorWrite, ih]

theorem filter_cursorWrite_channelRunEvents (cursor : Option String)
    (vr sr : ViewResult) (outcome : Video → Bool)
    (chooseNormals : List Video → List Video) :
    ((channelRunEvents cursor vr sr outcome chooseNormals).filter isCursorWrite)
      = (match (processChannel cursor vr sr).newCursor with
         | none => []
         | some c => [RunEvent.setCursor c]) := by
  unfold channelRunEvents
  cases h : (processChannel cursor vr sr).newCursor with
  | none => simp [h, filter_cursorWrite_attempts]
  | some c =>
    simp only [h, List.filter_append, filter_cursorWrite_attempts]
    simp [isCursorWrite]

/-! ### Helper lemmas about the store reconciliation -/

/-- The per-url sync map: the record matching the url gets is_active set,
every other record is untouched. -/
def activateMap (u : String) (c : ChannelRec) : ChannelRec :=
  if c.url = u then { c with is_active := true } else c

theorem activateChannel_eq_map (store : List ChannelRec) (u : String) :
    activateChannel store u = store.map (activateMap u) := rfl

theorem activateMap_url (u : String) (c : ChannelRec) :
    (activateMap u c).url = c.url := by
  unfold activateMap
  by_cases hc : c.url = u <;> simp [hc]

theorem activateMap_cursor (u : String) (c : ChannelRec) :
    (activateMap u c).last_video_id = c.last_video_id := by
  unfold activateMap
  by_cases hc : c.url = u <;> simp [hc]

theorem activateMap_active_fixed (u : String) (c : ChannelRec)
    (hact : c.is_active = true) : activateMap u c = c := by
  obtain ⟨curl, clvid, cact⟩ := c
  simp at hact
  subst hact
  unfold activateMap
  by_cases hc : curl = u <;> simp_all

theorem map_url_syncStep (store : List ChannelRec) (u : String) :
    (syncStep store u).map ChannelRec.url
      = if store.any (fun d => d.url = u) then store.map ChannelRec.url
        else store.map ChannelRec.url ++ [u] := by
  unfold syncStep insertOrIgnoreChannel
  by_cases hmem : store.any (fun d => d.url = u) = true
  · rw [if_pos hmem, if_pos hmem, activateChannel_eq_map, List.map_map]
    exact List.map_congr_left (fun c _ => activateMap_url u c)
  · have hmem2 : store.any (fun d => d.url = u) = false := Bool.eq_false_iff.mpr hmem
    simp only [hmem2, Bool.false_eq_true, if_neg, not_false_iff]
    rw [activateChannel_eq_map, List.map_map, List.map_append]
    congr 1
    · exact List.map_congr_left (fun c _ => activateMap_url u c)
    · simp [activateMap]

theorem syncStep_preserves {c : ChannelRec} {store : List ChannelRec} (u : String)
    (h : c ∈ store) :
    ∃ cc ∈ syncStep store u, cc.url = c.url ∧ cc.last_video_id = c.last_video_id := by
  refine ⟨activateMap u c, ?_, activateMap_url u c, activateMap_cursor u c⟩
  unfold syncStep insertOrIgnoreChannel
  rw [activateChannel_eq_map]
  by_cases hmem : store.any (fun d => d.url = u) = true
  · rw [if_pos hmem]
    exact List.mem_map_of_mem _ h
  · have hmem2 : store.any (fun d => d.url = u) = false := Bool.eq_false_iff.mpr hmem
    simp only [hmem2, Bool.false_eq_true, if_neg, not_false_iff]
    exact List.mem_map_of_mem _ (List.mem_append_left _ h)

theorem foldl_syncStep_preserves {c : ChannelRec} {store : List ChannelRec}
    (configUrls : List String) (h : c ∈ store) :
    ∃ cc ∈ configUrls.foldl syncStep store,
      cc.url = c.url ∧ cc.last_video_id = c.last_video_id := by
  induction configUrls generalizing store c with
  | nil => exact ⟨c, h, rfl, rfl⟩
  | cons u rest ih =>
    obtain ⟨c1, hc1, hurl1, hcur1⟩ := syncStep_preserves u h
    obtain ⟨c2, hc2, hurl2, hcur2⟩ := ih hc1
    exact ⟨c2, hc2, by rw [hurl2, hurl1], by rw [hcur2, hcur1]⟩

theorem syncStep_stale_untouched {c : ChannelRec} {store : List ChannelRec}
    {u : String} (h : c ∈ store) (hne : ¬ c.url = u) : c ∈ syncStep store u := by
  have himg : activateMap u c = c := by simp [activateMap, hne]
  unfold syncStep insertOrIgnoreChannel
  rw [activateChannel_eq_map]
  by_cases hmem : store.any (fun d => d.url = u) = true
  · rw [if_pos hmem]
    exact List.mem_map.mpr ⟨c, h, himg⟩
  · have hmem2 : store.any (fun d => d.url = u) = false := Bool.eq_false_iff.mpr hmem
    simp only [hmem2, Bool.false_eq_true, if_neg, not_false_iff]
    exact List.mem_map.mpr ⟨c, List.mem_append_left _ h, himg⟩

theorem foldl_syncStep_stale_untouched {c : ChannelRec} {store : List ChannelRec}
    (configUrls : List String) (h : c ∈ store) (hne : c.url ∉ configUrls) :
    c ∈ configUrls.foldl syncStep store := by
  induction configUrls generalizing store with
  | nil => exact h
  | cons u rest ih =>
    have hne1 : ¬ c.url = u := fun heq => hne (by rw [heq]; exact List.mem_cons_self u rest)
    have hne2 : c.url ∉ rest := fun hmem => hne (List.mem_cons_of_mem u hmem)
    exact ih (syncStep_stale_untouched h hne1) hne2

theorem syncStep_active_fixed {c : ChannelRec} {store : List ChannelRec}
    (u : String) (h : c ∈ store) (hact : c.is_active = true) : c ∈ syncStep store u := by
  unfold syncStep insertOrIgnoreChannel
  rw [activateChannel_eq_map]
  by_cases hmem : store.any (fun d => d.url = u) = true
  · rw [if_pos hmem]
    exact List.mem_map.mpr ⟨c, h, activateMap_active_fixed u c hact⟩
  · have hmem2 : store.any (fun d => d.url = u) = false := Bool.eq_false_iff.mpr hmem
    simp only [hmem2, Bool.false_eq_true, if_neg, not_false_iff]
    exact List.mem_map.mpr ⟨c, List.mem_append_left _ h, activateMap_active_fixed u c hact⟩

theorem foldl_syncStep_active_fixed {c : ChannelRec} {store : List ChannelRec}
    (configUrls : List String) (h : c ∈ store) (hact : c.is_active = true) :
    c ∈ configUrls.foldl syncStep store := by
  induction configUrls generalizing store with
  | nil => exact h
  | cons u rest ih => exact ih (syncStep_active_fixed u h hact)

theorem syncStep_no_new_url {store : List ChannelRec} {url u : String}
    (h : url ∉ store.map ChannelRec.url) (hne : ¬ url = u) :
    url ∉ (syncStep store u).map ChannelRec.url := by
  rw [map_url_syncStep]
  by_cases hmem : store.any (fun d => d.url = u) = true
  · rw [if_pos hmem]
    exact h
  · have hmem2 : store.any (fun d => d.url = u) = false := Bool.eq_false_iff.mpr hmem
    simp only [hmem2, Bool.false_eq_true, if_neg, not_false_iff]
    intro hcon
    rcases List.mem_append.mp hcon with hcon2 | hcon2
    · exact h hcon2
    · exact hne (by simpa using hcon2)

theorem foldl_syncStep_creates {store : List ChannelRec} {url : String}
    (configUrls : List String) (hin : url ∈ configUrls)
    (hout : url ∉ store.map ChannelRec.url) :
    (⟨url, none, true⟩ : ChannelRec) ∈ configUrls.foldl syncStep store := by
  induction configUrls generalizing store with
  | nil => cases hin
  | cons u rest ih =>
    by_cases hequ : url = u
    · subst hequ
      have hnew : (⟨url, none, true⟩ : ChannelRec) ∈ syncStep store url := by
        unfold syncStep insertOrIgnoreChannel
        rw [activateChannel_eq_map]
        have hmem2 : store.any (fun d => d.url = url) = false := by
          rw [← Bool.not_eq_true, List.any_eq_true]
          rintro ⟨d, hd, hdu⟩
          exact hout (List.mem_map.mpr ⟨d, hd, by simpa using hdu⟩)
        simp only [hmem2, Bool.false_eq_true, if_neg, not_false_iff]
        refine List.mem_map.mpr ⟨⟨url, none, true⟩, ?_, ?_⟩
        · exact List.mem_append_right store (List.mem_singleton.mpr rfl)
        · simp [activateMap]
      exact foldl_syncStep_active_fixed rest hnew rfl
    · rcases List.mem_cons.mp hin with heq | hrest
      · exact absurd heq hequ
      · exact ih hrest (syncStep_no_new_url hout hequ)

/-! ### Concrete example data -/

def cand1 : Video := ⟨"c1", "title one", "20250701", 60, 100, 200⟩

def cand2 : Video := ⟨"c2", "title two", "20250702", 60, 100, 200⟩

def cand3 : Video := ⟨"c3", "title three", "20250703", 60, 100, 200⟩

def cand4 : Video := ⟨"c4", "title four", "20250704", 60, 100, 200⟩

def cand5 : Video := ⟨"c5", "title five", "20250705", 60, 100, 200⟩

def chanA : ChannelRec := ⟨"https://example.test/a", none, true⟩

def chanB : ChannelRec := ⟨"https://example.test/b", none, true⟩

/-- A channel-run function whose first channel fails, used to evaluate the
batch loop of runAutomation at a failing input. -/
def failingFirstRun (ch : ChannelRec) : Except String Unit :=
  if ch.url = chanA.url then Except.error "processChannel failed" else Except.ok ()

/-! ### Small bridges from the takeWhile characterization -/

theorem take_findIndexOpt_none {α : Type} {p : α → Bool} {l : List α}
    (h : findIndexOpt p l = none) : l = l.takeWhile (fun x => !(p x)) := by
  have hx := findIndexOpt_take_eq_takeWhile p l
  rw [h] at hx
  simpa using hx

theorem take_findIndexOpt_some {α : Type} {p : α → Bool} {l : List α} {i : Nat}
    (h : findIndexOpt p l = some i) : l.take i = l.takeWhile (fun x => !(p x)) := by
  have hx := findIndexOpt_take_eq_takeWhile p l
  rw [h] at hx
  simpa using hx

/-! ### Claim theorems -/

/-- C1: a candidate with non-null duration, width and height is classified
a short iff durationSeconds < 181 and width < height, and normal
otherwise; duration 180 with 50x100 is a short, duration 181 with the
same shape is normal, and width = height is never a short.  The pipeline
partitions the truncated sequence with exactly this predicate. -/
theorem classification_boundary :
    (∀ v : Video, isShortFormat v = true ↔ (v.duration < 181 ∧ v.width < v.height))
    ∧ isShortFormat ⟨"bshort", "t", "20250710", 180, 50, 100⟩ = true
    ∧ isShortFormat ⟨"bnormal", "t", "20250710", 181, 50, 100⟩ = false
    ∧ (∀ v : Video, v.width = v.height → isShortFormat v = false)
    ∧ (∀ (cursor : Option String) (vr sr : ViewResult),
        (processChannel cursor vr sr).shorts
          = (processChannel cursor vr sr).newVideos.filter (fun v => isShortFormat v)
        ∧ (processChannel cursor vr sr).normalVideos
          = (processChannel cursor vr sr).newVideos.filter
              (fun v => !(isShortFormat v))) := by
  refine ⟨?_, by decide, by decide, ?_, ?_⟩
  · intro v
    simp [isShortFormat]
  · intro v heq
    simp [isShortFormat, heq]
  · intro cursor vr sr
    unfold processChannel
    by_cases h1 : (mergedUnique vr sr).length = 0
    · simp [h1]
    · simp only [h1, if_neg, not_false_iff]
      by_cases h2 :
        (truncateAtCursor cursor (sortByDateDesc (mergedUnique vr sr))).length = 0
      · simp [h2]
      · simp only [h2, if_neg, not_false_iff]
        constructor <;> first | rfl | trivial

theorem classification_boundary_witness :
    isShortFormat ⟨"sq", "t", "20250710", 60, 70, 70⟩ = false :=
  classification_boundary.2.2.2.1 ⟨"sq", "t", "20250710", 60, 70, 70⟩ rfl

/-- C2: with a non-absent cursor the kept output is exactly the prefix of
the sorted sequence strictly before the first position whose id equals
the cursor (the whole sequence when the id does not occur, and the whole
sequence for an absent cursor); on [c5,c4,c3,c2,c1] with cursor c3 the
result is [c5,c4], and with the newest id as cursor it is empty. -/
theorem truncation_keeps_strictly_newer :
    (∀ (c : String) (l : List Video), ¬ c = "" →
       truncateAtCursor (some c) l = l.takeWhile (fun v => !(v.id = c)))
    ∧ (∀ (c : String) (l : List Video), ¬ c = "" → (∀ v ∈ l, ¬ v.id = c) →
       truncateAtCursor (some c) l = l)
    ∧ (∀ l : List Video, truncateAtCursor none l = l)
    ∧ truncateAtCursor (some "c3") [cand5, cand4, cand3, cand2, cand1]
        = [cand5, cand4]
    ∧ truncateAtCursor (some "c5") [cand5, cand4, cand3, cand2, cand1] = [] := by
  refine ⟨?_, ?_, fun _ => rfl, by decide, by decide⟩
  · intro c l hc
    unfold truncateAtCursor
    simp only [hc, if_neg, not_false_iff]
    cases hf : findIndexOpt (fun v => v.id = c) l with
    | none => exact take_findIndexOpt_none hf
    | some i => exact take_findIndexOpt_some hf
  · intro c l hc hall
    unfold truncateAtCursor
    simp only [hc, if_neg, not_false_iff]
    rw [findIndexOpt_eq_none _ _ (fun v hv => by simpa using hall v hv)]

theorem truncation_keeps_strictly_newer_witness :
    truncateAtCursor (some "zz") [cand1] = [cand1] :=
  truncation_keeps_strictly_newer.2.1 "zz" [cand1] (by decide) (by decide)

/-- C5: in runAutomation the per-channel loop sits inside a single
try/catch, so the first channel whose run throws ends the batch: the
error is recorded but the remaining channels are never attempted.
Evaluated at a two-channel batch whose first channel fails. -/
theorem batch_aborts_after_first_failure :
    runBatch failingFirstRun [chanA, chanB]
      = ([chanA], some "processChannel failed")
    ∧ chanB ∉ (runBatch failingFirstRun [chanA, chanB]).1 := by
  refine ⟨by decide, by decide⟩

/-- C6: both temporary files of one acquisition are absent after
downloadAndProcessVideo, for every combination of stream-fetch and
transcode outcomes and every starting filesystem — the finally block
unlinks both on every exit path. -/
theorem temp_files_removed_on_every_path :
    ∀ (tempVideoFile tempAudioFile outputFile : String) (o : AcqOutcome)
      (fs : FileSys),
      downloadAndProcessFS tempVideoFile tempAudioFile outputFile o fs
          tempVideoFile = false
      ∧ downloadAndProcessFS tempVideoFile tempAudioFile outputFile o fs
          tempAudioFile = false := by
  intro tv ta outputFile o fs
  constructor
  · unfold downloadAndProcessFS fsUnlink
    by_cases h : tv = ta <;> simp [h]
  · unfold downloadAndProcessFS fsUnlink
    simp

/-- C7: a failing Lister call makes findNewVideos return the empty view
result rather than throwing, and processChannel on such a view result
behaves exactly as on an empty view, so the channel continues with the
other view. -/
theorem failed_view_contributes_empty :
    (∀ (e afterDate : String) (lid : Option String),
       findNewVideos (Except.error e) afterDate lid = ⟨[], []⟩)
    ∧ (∀ (e afterDate : String) (lid : Option String) (cursor : Option String)
         (other : ViewResult),
        processChannel cursor (findNewVideos (Except.error e) afterDate lid) other
          = processChannel cursor ⟨[], []⟩ other
        ∧ processChannel cursor other (findNewVideos (Except.error e) afterDate lid)
          = processChannel cursor other ⟨[], []⟩) :=
  ⟨fun _ _ _ => rfl, fun _ _ _ _ _ => ⟨rfl, rfl⟩⟩

/-- C10: findNewVideos never reads its lastVideoId argument: two calls
with the same Lister output and afterDate but different cursors return
identical view results. -/
theorem findNewVideos_cursor_noninterference :
    ∀ (listerResult : Except String (Option (List (Option Video))))
      (afterDate : String) (lid1 lid2 : Option String),
      findNewVideos listerResult afterDate lid1
        = findNewVideos listerResult afterDate lid2 :=
  fun _ _ _ _ => rfl

/-! ### Remaining claims -/

def dupVideosTab : Video := ⟨"dup", "instance from the videos tab", "20250710", 60, 100, 200⟩

def dupShortsTab : Video := ⟨"dup", "instance from the shorts tab", "20250710", 60, 100, 200⟩

/-- C3 counterexample: the claim keeps the instance from the first view
in the fixed concatenation order (videos-tab first), but the JS Map
overwrites on re-insertion, so the shorts-tab instance survives. -/
theorem merge_keeps_last_not_first_cex :
    mergedUnique ⟨[dupVideosTab], []⟩ ⟨[dupShortsTab], []⟩ = [dupShortsTab]
    ∧ dupShortsTab ≠ dupVideosTab
    ∧ mergedUnique ⟨[dupVideosTab], []⟩ ⟨[dupShortsTab], []⟩ ≠ [dupVideosTab] := by
  refine ⟨by decide, by decide, by decide⟩

/-- C3 amended: the merged set has exactly one element per id of the
union of the two views, and for every id the kept instance is the last
occurrence in the fixed concatenation order (last write wins). -/
theorem merge_dedup_amended :
    ∀ (vr sr : ViewResult),
      (mergedUnique vr sr).length
        = (((vr.shorts ++ vr.normalVideos).map Video.id).toFinset
            ∪ ((sr.shorts ++ sr.normalVideos).map Video.id).toFinset).card
      ∧ ∀ i : String,
          (mergedUnique vr sr).find? (fun v => v.id = i)
            = ((combinedList vr sr).filter (fun v => v.id = i)).getLast? := by
  intro vr sr
  refine ⟨?_, fun i => find?_dedupById _ i⟩
  rw [mergedUnique, length_dedupById]
  congr 1
  ext i
  simp only [Finset.mem_union, List.mem_toFinset, List.mem_map, combinedList,
    List.mem_append]
  aesop

def runOneVid : Video := ⟨"A", "first run upload", "20250710", 60, 100, 200⟩

def runTwoVid : Video := ⟨"B", "second run upload", "20250705", 60, 100, 200⟩

/-- C4 counterexample: when the previous cursor id is absent from the
new listing, the whole listing is treated as new and the cursor is set to
its newest item, which can carry an older upload date than the cursor it
replaces — the cursor moves backward in upload-date order. -/
theorem cursor_moves_backward_cex :
    nextCursor none ⟨[runOneVid], []⟩ ⟨[], []⟩ = some "A"
    ∧ nextCursor (some "A") ⟨[runTwoVid], []⟩ ⟨[], []⟩ = some "B"
    ∧ lexLt runTwoVid.upload_date.data runOneVid.upload_date.data = true := by
  refine ⟨by decide, by decide, by decide⟩

/-- C4 amended: the cursor write happens at most once per run, as the
last event, after every acquisition attempt, carries the id of the newest
truncated candidate, and does not depend on acquisition outcomes; and in
every run whose deduplicated sorted sequence contains the previous cursor
id, the new cursor's upload date is not older than the previous cursor
video's. -/
theorem cursor_set_once_and_monotone_when_present :
    (∀ (cursor : Option String) (vr sr : ViewResult) (outcome : Video → Bool)
       (chooseNormals : List Video → List Video),
       ((channelRunEvents cursor vr sr outcome chooseNormals).filter isCursorWrite)
         = (match (processChannel cursor vr sr).newCursor with
            | none => []
            | some c => [RunEvent.setCursor c]))
    ∧ (∀ (cursor : Option String) (vr sr : ViewResult) (outcome : Video → Bool)
         (chooseNormals : List Video → List Video) (c : String),
        (processChannel cursor vr sr).newCursor = some c →
          (channelRunEvents cursor vr sr outcome chooseNormals).getLast?
            = some (RunEvent.setCursor c))
    ∧ (∀ (cursor : Option String) (vr sr : ViewResult) (o1 o2 : Video → Bool)
         (ch1 ch2 : List Video → List Video),
        ((channelRunEvents cursor vr sr o1 ch1).filter isCursorWrite)
          = ((channelRunEvents cursor vr sr o2 ch2).filter isCursorWrite))
    ∧ (∀ (cursor : Option String) (vr sr : ViewResult) (v : Video),
        (processChannel cursor vr sr).newVideos.head? = some v → ¬ v.id = "" →
          (processChannel cursor vr sr).newCursor = some v.id)
    ∧ (∀ (c : String) (vr sr : ViewResult) (w : Video),
        w ∈ sortByDateDesc (mergedUnique vr sr) → w.id = c →
        ∀ cnew, nextCursor (some c) vr sr = some cnew →
          ∃ wnew, wnew ∈ sortByDateDesc (mergedUnique vr sr) ∧ wnew.id = cnew
            ∧ lexLt wnew.upload_date.data w.upload_date.data = false) := by
  refine ⟨filter_cursorWrite_channelRunEvents, ?_, ?_, ?_, ?_⟩
  · intro cursor vr sr outcome chooseNormals c h
    simp only [channelRunEvents, h]
    exact List.getLast?_concat _
  · intro cursor vr sr o1 o2 ch1 ch2
    rw [filter_cursorWrite_channelRunEvents, filter_cursorWrite_channelRunEvents]
  · intro cursor vr sr v hhead hne
    unfold processChannel at hhead ⊢
    by_cases h1 : (mergedUnique vr sr).length = 0
    · simp [h1] at hhead
    · simp only [h1, if_neg, not_false_iff] at hhead ⊢
      by_cases h2 :
        (truncateAtCursor cursor (sortByDateDesc (mergedUnique vr sr))).length = 0
      · simp [h2] at hhead
      · simp only [h2, if_neg, not_false_iff] at hhead ⊢
        have hhead2 : (truncateAtCursor cursor
            (sortByDateDesc (mergedUnique vr sr))).head? = some v := hhead
        rw [hhead2]
        simp [hne]
  · intro c vr sr w hw hwid cnew hnext
    unfold nextCursor at hnext
    cases hnc : (processChannel (some c) vr sr).newCursor with
    | none =>
      rw [hnc] at hnext
      have hce : c = cnew := by simpa using hnext
      refine ⟨w, hw, by rw [hwid, hce], lexLt_irrefl _⟩
    | some c0 =>
      rw [hnc] at hnext
      have hc0 : c0 = cnew := by simpa using hnext
      obtain ⟨hv, hh, hhid⟩ := newCursor_eq_head_id hnc
      refine ⟨hv, ?_, by rw [hhid, hc0], ?_⟩
      · exact List.mem_of_mem_head? (by rw [hh]; rfl)
      · exact head_notOlder_of_mem (pairwise_sortByDateDesc _) hh hw

theorem cursor_set_once_witness :
    (processChannel none ⟨[cand1], []⟩ ⟨[], []⟩).newCursor = some "c1" :=
  cursor_set_once_and_monotone_when_present.2.2.2.1 none
    ⟨[cand1], []⟩ ⟨[], []⟩ cand1 (by decide) (by decide)

def oldDateVid : Video := ⟨"old1", "too old", "20250601", 60, 100, 200⟩

/-- C8 counterexample: findNewVideos drops a candidate that has an upload
date but lies below the floor, and its output depends on afterDate —
the floor is applied in Discovery, not downstream. -/
theorem discovery_applies_date_floor_cex :
    ¬ oldDateVid.upload_date = ""
    ∧ findNewVideos (Except.ok (some [some oldDateVid])) "20250701" none = ⟨[], []⟩
    ∧ findNewVideos (Except.ok (some [some oldDateVid])) "20250101" none
        ≠ findNewVideos (Except.ok (some [some oldDateVid])) "20250701" none := by
  refine ⟨by decide, by decide, by decide⟩

/-- C8 amended: Discovery keeps exactly the non-null candidates with a
non-empty upload date at or above the floor; the downstream merge applies
no further per-candidate filtering — it preserves the id set of its
input. -/
theorem discovery_date_floor_amended :
    (∀ (afterDate : String) (entries : List (Option Video)) (v : Video),
       v ∈ collectFound afterDate entries
         ↔ (some v ∈ entries ∧ ¬ v.upload_date = ""
            ∧ lexLt v.upload_date.data afterDate.data = false))
    ∧ (∀ (vr sr : ViewResult) (i : String),
        i ∈ (mergedUnique vr sr).map Video.id
          ↔ i ∈ (combinedList vr sr).map Video.id) := by
  refine ⟨?_, fun vr sr i => mem_map_id_dedupById _ i⟩
  intro afterDate entries v
  unfold collectFound
  rw [List.mem_filterMap]
  constructor
  · rintro ⟨e, he, hfe⟩
    cases e with
    | none => simp at hfe
    | some w =>
      by_cases h1 : w.upload_date = ""
      · simp [h1] at hfe
      · by_cases h2 : lexLt w.upload_date.data afterDate.data = true
        · simp [h1, h2] at hfe
        · have h2f : lexLt w.upload_date.data afterDate.data = false :=
            Bool.eq_false_iff.mpr h2
          simp only [h1, if_neg, not_false_iff, h2f, Bool.false_eq_true,
            Option.some_inj] at hfe
          subst hfe
          exact ⟨he, h1, h2f⟩
  · rintro ⟨he, h1, h2⟩
    refine ⟨some v, he, ?_⟩
    simp [h1, h2]

/-- C9: reconciliation creates a configured-but-absent channel with no
cursor and active; only deactivates a stored-but-unconfigured channel,
leaving its url and cursor unchanged; keeps a record (with the same url
and cursor) for every previously stored channel; and never touches the
acquisition records. -/
theorem reconciliation_frame :
    ∀ (configUrls : List String) (s : Store),
      (∀ url, url ∈ configUrls → url ∉ s.channels.map ChannelRec.url →
         (⟨url, none, true⟩ : ChannelRec) ∈ (reconcileStore configUrls s).channels)
      ∧ (∀ c ∈ s.channels, c.url ∉ configUrls →
          ({ c with is_active := false } : ChannelRec)
            ∈ (reconcileStore configUrls s).channels)
      ∧ (∀ c ∈ s.channels, ∃ cc ∈ (reconcileStore configUrls s).channels,
          cc.url = c.url ∧ cc.last_video_id = c.last_video_id)
      ∧ (reconcileStore configUrls s).videos = s.videos := by
  intro configUrls s
  refine ⟨?_, ?_, ?_, rfl⟩
  · intro url hin hout
    have hmem := foldl_syncStep_creates configUrls hin hout
    have hguard : (s.channels.any (fun d => d.url = url)) = false := by
      rw [← Bool.not_eq_true, List.any_eq_true]
      rintro ⟨d, hd, hdu⟩
      exact hout (List.mem_map.mpr ⟨d, hd, by simpa using hdu⟩)
    unfold reconcileStore reconcileChannels
    refine List.mem_map.mpr ⟨⟨url, none, true⟩, hmem, ?_⟩
    simp [hguard]
  · intro c hc hnc
    have hmem := foldl_syncStep_stale_untouched configUrls hc hnc
    have hguard1 : (s.channels.any (fun d => d.url = c.url)) = true :=
      List.any_eq_true.mpr ⟨c, hc, by simp⟩
    have hguard2 : (configUrls.contains c.url) = false := by simpa using hnc
    unfold reconcileStore reconcileChannels
    refine List.mem_map.mpr ⟨c, hmem, ?_⟩
    have hcond : ((s.channels.any (fun d => d.url = c.url))
        && !(configUrls.contains c.url)) = true := by
      rw [hguard1, hguard2]
      rfl
    rw [if_pos hcond]
  · intro c hc
    obtain ⟨cc, hcc, hurl, hcur⟩ := foldl_syncStep_preserves configUrls hc
    unfold reconcileStore reconcileChannels
    refine ⟨_, List.mem_map_of_mem _ hcc, ?_, ?_⟩
    · by_cases hg : ((s.channels.any (fun d => d.url = cc.url))
          && !(configUrls.contains cc.url)) = true
      · rw [if_pos hg]
        exact hurl
      · rw [if_neg hg]
        exact hurl
    · by_cases hg : ((s.channels.any (fun d => d.url = cc.url))
          && !(configUrls.contains cc.url)) = true
      · rw [if_pos hg]
        exact hcur
      · rw [if_neg hg]
        exact hcur

theorem reconciliation_frame_witness :
    (⟨"https://example.test/new", none, true⟩ : ChannelRec)
      ∈ (reconcileStore ["https://example.test/new"]
          ⟨[⟨"https://example.test/old", some "vid9", true⟩], []⟩).channels :=
  (reconciliation_frame ["https://example.test/new"]
      ⟨[⟨"https://example.test/old", some "vid9", true⟩], []⟩).1
    "https://example.test/new" (by decide) (by decide)

end ShortsStash
